import Mathlib

/-!
A shallow embedding of `manage.py` from the stop-words repository.

The program manages per-language word-list text files: a JSON registry
(`languages.json`) maps language codes to file stems, and the operations
are sorting a language file by ICU collation and merging extra word files
into one, with NFC normalization and set-based deduplication.

Modelling choices:
* The filesystem is explicit state: `FS` maps a path (a `String`) to an
  optional content string, together with oracles for read failures
  (`OSError` on `open` for reading) and write behaviour.  Python's
  `open(path, "w")` truncates the file as soon as the open succeeds, and a
  subsequent `writelines` may itself raise `OSError` after writing a prefix;
  `WriteBehavior.failsAfter n` models that mode (the file is left holding
  the first `n` characters of the intended content), `openFails` models a
  failure of the open itself (the file is untouched), `succeeds` the normal
  case.
* ICU is the external collation capability: `Option ICUCap` is `none` when
  `import icu` fails.  A capability provides the set of available locales
  and, per language, the collator sort key (at IDENTICAL strength) as a
  list of naturals; Python's `sorted(words, key=...)` is a stable sort
  comparing keys lexicographically, modelled with `List.mergeSort`.
* `unicodedata.normalize("NFC", ·)` is an abstract parameter
  `nfc : String → String`; theorems add the hypotheses they need about it.
* Python's `set` of strings is modelled as an insertion-ordered duplicate-free
  list (`nfcInsert`); CPython's set iteration order is some deterministic
  function of the insertions, and every theorem that depends on the exact
  output order carries the hypotheses (injective sort keys, or an already
  sorted input) making the order independent of that choice.
* Exceptions become an explicit error type: `LanguageDataError` carries its
  message, and the `SystemExit` raised for an unreadable extra file during a
  merge is a separate constructor.
* Text files are read with `readlines` semantics: lines keep their trailing
  newline, and a final fragment without a newline is a line of its own;
  `writelines` concatenates the given strings with no separator.
-/

namespace StopWords

/-- The two exception kinds `manage.py` raises: `LanguageDataError msg` for
every failure of the registry, file store and sorter, and `systemExit msg`
for the `raise SystemExit(...)` on an unreadable extra file in
`merge_language_files`. -/
inductive PyErr where
  | LanguageDataError (msg : String)
  | systemExit (msg : String)
  deriving DecidableEq, Repr

/-- A single-quote character, used to model Python `repr` of a string. -/
def sq : String := String.singleton (Char.ofNat 39)

/-- Python `repr` of a plain string (no escaping needed for the names that
occur here): the string wrapped in single quotes, as produced by the `!r`
format conversions in the error messages of `manage.py`. -/
def pyRepr (s : String) : String := sq ++ s ++ sq

/-- Outcome of `open(path, "w")` followed by `writelines` on a given path:
the open may fail (file untouched), the open may succeed (truncating the
file) with the write failing after `n` characters, or everything succeeds. -/
inductive WriteBehavior where
  | openFails
  | failsAfter (n : Nat)
  | succeeds
  deriving DecidableEq, Repr

/-- The filesystem state: contents per path (`none` = no such file), a
read-failure oracle (an `OSError` on `open` for reading even though the
file may exist), and the write behaviour per path. -/
structure FS where
  content : String → Option String
  readFails : String → Bool
  writeBehavior : String → WriteBehavior

/-- Replace the content of one path. -/
def FS.setContent (fs : FS) (p c : String) : FS :=
  { fs with content := fun q => if q = p then some c else fs.content q }

/-- Helper for `readlines`: walk the characters, accumulating the current
line in reverse; a newline closes the line (kept at its end), and a final
nonempty fragment becomes a line without a terminator. -/
def readlinesAux : List Char → List Char → List String
  | [], [] => []
  | [], acc => [String.mk acc.reverse]
  | c :: rest, acc =>
    if c = Char.ofNat 10 then
      String.mk (acc.reverse ++ [Char.ofNat 10]) :: readlinesAux rest []
    else
      readlinesAux rest (c :: acc)

/-- Python `file.readlines()`: the lines of the content, each keeping its
trailing newline; a final fragment with no newline is its own line. -/
def readlines (s : String) : List String := readlinesAux s.data []

/-- The ICU capability: which language codes have a locale
(`icu.Locale.getAvailableLocales()` lookup), and per language the
IDENTICAL-strength collator sort key of a word, a byte sequence compared
lexicographically. -/
structure ICUCap where
  hasLocale : String → Bool
  sortKey : String → String → List Nat

/-- Lexicographic comparison of sort keys, as Python compares the byte
strings returned by `getSortKey`. -/
def keyLe : List Nat → List Nat → Bool
  | [], _ => true
  | _ :: _, [] => false
  | a :: as, b :: bs =>
    if a < b then true else if b < a then false else keyLe as bs

/-- The comparison `sorted(words, key=collator.getSortKey)` uses. -/
def wordLe (key : String → List Nat) (a b : String) : Bool :=
  keyLe (key a) (key b)

/-- Stable insertion of an element into a list: it lands before the first
element it compares `le` to, hence after every earlier tie. -/
def insortWord (le : α → α → Bool) (a : α) : List α → List α
  | [] => [a]
  | b :: l => if le a b then a :: b :: l else b :: insortWord le a l

/-- Python `sorted` is a stable sort, and for a total, transitive
comparison every stable sort produces the same output sequence (ties keep
their input order, everything else is forced); this structurally recursive
stable insertion sort therefore models `sorted(words, key=...)` exactly,
since the sort-key comparison used here is total and transitive. -/
def stableSort (le : α → α → Bool) : List α → List α
  | [] => []
  | a :: l => insortWord le a (stableSort le l)

/-- `sort_word_list(lang, words)` of `manage.py`: fails when `import icu`
fails (the capability is absent), fails when no ICU locale exists for the
language, and otherwise stably sorts by the IDENTICAL-strength collator
key.  `icu_locales[lang]` raising `KeyError` is the `hasLocale lang = false`
case. -/
def sort_word_list (icu : Option ICUCap) (lang : String) (words : List String) :
    Except PyErr (List String) :=
  match icu with
  | none => .error (.LanguageDataError "PyICU is needed for proper unicode sorting")
  | some cap =>
    if cap.hasLocale lang then
      .ok (stableSort (wordLe (cap.sortKey lang)) words)
    else
      .error (.LanguageDataError ("No ICU locale available for language " ++ pyRepr lang))

/-- A JSON value as far as the registry validation distinguishes them:
a string, or anything else. -/
inductive JVal where
  | str (s : String)
  | other
  deriving DecidableEq, Repr

/-- What reading and parsing `languages.json` can yield: an `OSError` on
open, a `json.JSONDecodeError`, a parse to something other than a dict, or
a dict of entries in document order (Python dicts preserve it). -/
inductive RegistryDoc where
  | unreadable
  | unparseable
  | notDict
  | dict (entries : List (String × JVal))
  deriving DecidableEq, Repr

/-- `LanguageDataIndexPayload`: the validated root path and code→stem
mapping, kept as an association list in insertion order. -/
structure LanguageDataIndexPayload where
  root_path : String
  path_mapping : List (String × String)
  deriving DecidableEq, Repr

/-- The path `root_path / f"{stem}.txt"`. -/
def langFilePath (root stem : String) : String := root ++ "/" ++ stem ++ ".txt"

namespace LanguageDataIndexPayload

/-- `get_lang_codes`: the mapping's keys in insertion order. -/
def get_lang_codes (p : LanguageDataIndexPayload) : List String :=
  p.path_mapping.map Prod.fst

/-- `get_path`: raise `LanguageDataError` for a code absent from the
mapping, otherwise `root_path / f"{mapping[lang]}.txt"`. -/
def get_path (p : LanguageDataIndexPayload) (lang : String) : Except PyErr String :=
  match p.path_mapping.lookup lang with
  | none => .error (.LanguageDataError ("Unrecognized language " ++ pyRepr lang))
  | some stem => .ok (langFilePath p.root_path stem)

/-- `read_language_file`: resolve the path (its `LanguageDataError`
propagates), open and `readlines`; an `OSError` becomes a
`LanguageDataError` naming the stem. -/
def read_language_file (p : LanguageDataIndexPayload) (fs : FS) (lang : String) :
    Except PyErr (List String) :=
  match p.path_mapping.lookup lang with
  | none => .error (.LanguageDataError ("Unrecognized language " ++ pyRepr lang))
  | some stem =>
    match fs.content (langFilePath p.root_path stem) with
    | some c =>
      if fs.readFails (langFilePath p.root_path stem) then
        .error (.LanguageDataError ("Could not read language file " ++ stem))
      else
        .ok (readlines c)
    | none => .error (.LanguageDataError ("Could not read language file " ++ stem))

/-- `write_to_language_file`: resolve the path (its `LanguageDataError`
propagates), `open(path, "w")` and `writelines(words)`.  The result is the
filesystem after the call together with the raised error, if any: a failed
open leaves the file untouched, a write failure after a successful open
leaves the truncated prefix, and both raise the same `LanguageDataError`.
`writelines` concatenates the words with no separator. -/
def write_to_language_file (p : LanguageDataIndexPayload) (fs : FS) (lang : String)
    (words : List String) : FS × Option PyErr :=
  match p.path_mapping.lookup lang with
  | none => (fs, some (.LanguageDataError ("Unrecognized language " ++ pyRepr lang)))
  | some stem =>
    match fs.writeBehavior (langFilePath p.root_path stem) with
    | .openFails =>
      (fs, some (.LanguageDataError
        ("Could not open language file " ++ stem ++ " for writing")))
    | .failsAfter n =>
      (fs.setContent (langFilePath p.root_path stem) ((String.join words).take n),
        some (.LanguageDataError
          ("Could not open language file " ++ stem ++ " for writing")))
    | .succeeds => (fs.setContent (langFilePath p.root_path stem) (String.join words), none)

end LanguageDataIndexPayload

/-- The entry-validation loop of `LanguageDataIndex.__enter__`: every value
must be a string whose `<stem>.txt` exists under the root (`Path.exists`,
no content read); the first offending key aborts the whole load. -/
def validateEntries (root idx : String) (fs : FS) :
    List (String × JVal) → Except PyErr (List (String × String))
  | [] => .ok []
  | (key, JVal.str s) :: rest =>
    if (fs.content (langFilePath root s)).isSome then
      match validateEntries root idx fs rest with
      | .ok tail => .ok ((key, s) :: tail)
      | .error e => .error e
    else
      .error (.LanguageDataError
        ("Expected the key " ++ pyRepr key ++ " in " ++ idx ++
          " to point to a valid language file"))
  | (key, JVal.other) :: _ =>
    .error (.LanguageDataError
      ("Expected the key " ++ pyRepr key ++ " in " ++ idx ++
        " to point to a valid language file"))

/-- `LanguageDataIndex.__enter__`: read and parse `languages.json` under
the root (the read/parse outcome is the `RegistryDoc` input), require a
dict, validate every entry, and return the payload.  Any failure raises
`LanguageDataError` and no payload is returned. -/
def LanguageDataIndex_enter (root : String) (doc : RegistryDoc) (fs : FS) :
    Except PyErr LanguageDataIndexPayload :=
  let idx := root ++ "/languages.json"
  match doc with
  | .unreadable => .error (.LanguageDataError ("Could not read language index file " ++ idx))
  | .unparseable => .error (.LanguageDataError ("Could not parse the language index file " ++ idx))
  | .notDict =>
    .error (.LanguageDataError
      ("Expected the language index file " ++ idx ++ " to be a JSON dictionary"))
  | .dict entries =>
    match validateEntries root idx fs entries with
    | .error e => .error e
    | .ok mapping => .ok ⟨root, mapping⟩

/-- One step of building the word bag: `word_bag.add(unicodedata.normalize("NFC", word))`,
with the Python set modelled as an insertion-ordered duplicate-free list. -/
def nfcInsert (nfc : String → String) (bag : List String) (w : String) : List String :=
  if nfc w ∈ bag then bag else bag ++ [nfc w]

/-- Fold a sequence of raw words into the bag, normalizing each. -/
def buildBag (nfc : String → String) (bag : List String) (ws : List String) : List String :=
  ws.foldl (nfcInsert nfc) bag

/-- The extra-files loop of `merge_language_files`: read each path in order
and fold its lines into the bag; an `OSError` (missing file or failed read)
raises `SystemExit` naming the path. -/
def collect_extra_words (fs : FS) (nfc : String → String) :
    List String → List String → Except PyErr (List String)
  | [], bag => .ok bag
  | path :: rest, bag =>
    match fs.content path with
    | some c =>
      if fs.readFails path then
        .error (.systemExit ("Could not read " ++ path ++ ". Aborting."))
      else
        collect_extra_words fs nfc rest (buildBag nfc bag (readlines c))
    | none => .error (.systemExit ("Could not read " ++ path ++ ". Aborting."))

/-- The word bag `merge_language_files` builds before sorting: the target
language file's lines, normalized and deduplicated, then each extra file's
lines folded in. -/
def merge_word_bag (nfc : String → String) (fs : FS) (p : LanguageDataIndexPayload)
    (lang : String) (new_paths : List String) : Except PyErr (List String) :=
  match p.read_language_file fs lang with
  | .error e => .error e
  | .ok lines => collect_extra_words fs nfc new_paths (buildBag nfc [] lines)

/-- `merge_language_files(lang_index, lang, new_paths)`: build the bag,
sort it for the language's locale, write it back.  The result is the
filesystem after the call together with the raised error, if any. -/
def merge_language_files (icu : Option ICUCap) (nfc : String → String) (fs : FS)
    (p : LanguageDataIndexPayload) (lang : String) (new_paths : List String) :
    FS × Option PyErr :=
  match merge_word_bag nfc fs p lang new_paths with
  | .error e => (fs, some e)
  | .ok bag =>
    match sort_word_list icu lang bag with
    | .error e => (fs, some e)
    | .ok words => p.write_to_language_file fs lang words

/-- The loop of the `sort-all` subcommand: `merge_language_files` with no
extra files for each registered code in order; the first error aborts the
loop (the exception propagates out of the `for`). -/
def sort_all_loop (icu : Option ICUCap) (nfc : String → String)
    (p : LanguageDataIndexPayload) : FS → List String → FS × Option PyErr
  | fs, [] => (fs, none)
  | fs, code :: rest =>
    match merge_language_files icu nfc fs p code [] with
    | (fs', none) => sort_all_loop icu nfc p fs' rest
    | (fs', some e) => (fs', some e)

/-- The `sort-all` subcommand body (after the registry is entered). -/
def cli_sort_all (icu : Option ICUCap) (nfc : String → String) (fs : FS)
    (p : LanguageDataIndexPayload) : FS × Option PyErr :=
  sort_all_loop icu nfc p fs p.get_lang_codes

/-! ### Basic facts about strings and `readlines` -/

theorem String.eq_of_data_eq {a b : String} (h : a.data = b.data) : a = b := by
  cases a; cases b; exact congrArg String.mk h

theorem foldl_append_data (l : List String) (init : String) :
    (l.foldl (fun r s => r ++ s) init).data = init.data ++ (l.map String.data).flatten := by
  induction l generalizing init with
  | nil => simp
  | cons x xs ih => simp [ih]

theorem join_data (l : List String) : (String.join l).data = (l.map String.data).flatten := by
  simp [String.join, foldl_append_data]

theorem join_readlinesAux (cs acc : List Char) :
    ((readlinesAux cs acc).map String.data).flatten = acc.reverse ++ cs := by
  induction cs generalizing acc with
  | nil =>
    cases acc with
    | nil => simp [readlinesAux]
    | cons c cs => simp [readlinesAux]
  | cons c rest ih =>
    by_cases h : c = Char.ofNat 10
    · subst h
      simp [readlinesAux, ih]
    · simp [readlinesAux, h, ih]

/-- Concatenating the lines read from a file recovers the file content:
`readlines` loses nothing and `writelines` inserts nothing. -/
theorem join_readlines (s : String) : String.join (readlines s) = s := by
  apply String.eq_of_data_eq
  simp [readlines, join_data, join_readlinesAux]

/-! ### The sort-key comparison is total and transitive, and antisymmetric
on distinct keys -/

theorem keyLe_total : ∀ k₁ k₂ : List Nat, keyLe k₁ k₂ = true ∨ keyLe k₂ k₁ = true
  | [], _ => Or.inl rfl
  | _ :: _, [] => Or.inr rfl
  | a :: as, b :: bs => by
    rcases Nat.lt_trichotomy a b with h | h | h
    · left; simp [keyLe, h]
    · subst h
      rcases keyLe_total as bs with ih | ih
      · left; simp [keyLe, ih]
      · right; simp [keyLe, ih]
    · right; simp [keyLe, h]

theorem keyLe_trans : ∀ k₁ k₂ k₃ : List Nat,
    keyLe k₁ k₂ = true → keyLe k₂ k₃ = true → keyLe k₁ k₃ = true
  | [], _, _, _, _ => rfl
  | a :: as, [], _, h, _ => by simp [keyLe] at h
  | _ :: _, _ :: _, [], _, h => by simp [keyLe] at h
  | a :: as, b :: bs, c :: cs, h₁, h₂ => by
    simp only [keyLe] at h₁ h₂ ⊢
    split at h₁
    · rename_i hab
      split at h₂
      · rename_i hbc
        simp [Nat.lt_trans hab hbc]
      · split at h₂
        · exact absurd h₂ (by simp)
        · rename_i hcb hbc
          have hbc' : b = c := Nat.le_antisymm (Nat.le_of_not_lt hbc) (Nat.le_of_not_lt hcb)
          subst hbc'
          simp [hab]
    · split at h₁
      · exact absurd h₁ (by simp)
      · rename_i hba hab
        have hab' : a = b := Nat.le_antisymm (Nat.le_of_not_lt hab) (Nat.le_of_not_lt hba)
        subst hab'
        split at h₂
        · rename_i hac
          simp [hac]
        · split at h₂
          · exact absurd h₂ (by simp)
          · rename_i hca hac
            have : a = c := Nat.le_antisymm (Nat.le_of_not_lt hac) (Nat.le_of_not_lt hca)
            subst this
            simp [keyLe_trans as bs cs h₁ h₂]

theorem keyLe_antisymm : ∀ k₁ k₂ : List Nat,
    keyLe k₁ k₂ = true → keyLe k₂ k₁ = true → k₁ = k₂
  | [], [], _, _ => rfl
  | [], _ :: _, _, h => by simp [keyLe] at h
  | _ :: _, [], h, _ => by simp [keyLe] at h
  | a :: as, b :: bs, h₁, h₂ => by
    simp only [keyLe] at h₁ h₂
    split at h₁
    · rename_i hab
      rw [if_neg (Nat.lt_asymm hab), if_pos hab] at h₂
      exact absurd h₂ (by simp)
    · split at h₁
      · exact absurd h₁ (by simp)
      · rename_i hba hab
        have : a = b := Nat.le_antisymm (Nat.le_of_not_lt hab) (Nat.le_of_not_lt hba)
        subst this
        rw [if_neg (by omega), if_neg (by omega)] at h₂
        rw [keyLe_antisymm as bs h₁ h₂]

theorem wordLe_total (key : String → List Nat) (a b : String) :
    wordLe key a b = true ∨ wordLe key b a = true := keyLe_total (key a) (key b)

theorem wordLe_trans (key : String → List Nat) (a b c : String)
    (h₁ : wordLe key a b = true) (h₂ : wordLe key b c = true) : wordLe key a c = true :=
  keyLe_trans (key a) (key b) (key c) h₁ h₂

/-! ### The stable sort: permutation, sortedness, identity on sorted input,
and uniqueness of sorted permutations under elementwise antisymmetry -/

theorem insortWord_perm (le : α → α → Bool) (a : α) :
    ∀ l : List α, List.Perm (insortWord le a l) (a :: l)
  | [] => List.Perm.refl _
  | b :: l => by
    simp only [insortWord]
    split
    · exact List.Perm.refl _
    · exact ((insortWord_perm le a l).cons b).trans (List.Perm.swap a b l)

theorem stableSort_perm (le : α → α → Bool) :
    ∀ l : List α, List.Perm (stableSort le l) l
  | [] => List.Perm.refl _
  | a :: l =>
    (insortWord_perm le a (stableSort le l)).trans ((stableSort_perm le l).cons a)

theorem mem_stableSort (le : α → α → Bool) (l : List α) (x : α) :
    x ∈ stableSort le l ↔ x ∈ l := (stableSort_perm le l).mem_iff

theorem pairwise_insortWord (le : α → α → Bool)
    (total : ∀ a b, le a b = true ∨ le b a = true)
    (trans : ∀ a b c, le a b = true → le b c = true → le a c = true)
    (a : α) : ∀ l : List α, List.Pairwise (fun x y => le x y = true) l →
      List.Pairwise (fun x y => le x y = true) (insortWord le a l)
  | [], _ => by simp [insortWord]
  | b :: l, h => by
    simp only [insortWord]
    rcases List.pairwise_cons.mp h with ⟨hb, hl⟩
    split
    · rename_i hab
      refine List.pairwise_cons.mpr ⟨?_, h⟩
      intro x hx
      rcases List.mem_cons.mp hx with rfl | hx
      · exact hab
      · exact trans a b x hab (hb x hx)
    · rename_i hab
      have hba : le b a = true := (total a b).resolve_left (by simpa using hab)
      refine List.pairwise_cons.mpr ⟨?_, pairwise_insortWord le total trans a l hl⟩
      intro x hx
      rcases List.mem_cons.mp ((insortWord_perm le a l).mem_iff.mp hx) with rfl | hx
      · exact hba
      · exact hb x hx

theorem pairwise_stableSort (le : α → α → Bool)
    (total : ∀ a b, le a b = true ∨ le b a = true)
    (trans : ∀ a b c, le a b = true → le b c = true → le a c = true) :
    ∀ l : List α, List.Pairwise (fun x y => le x y = true) (stableSort le l)
  | [] => by simp [stableSort]
  | a :: l =>
    pairwise_insortWord le total trans a (stableSort le l)
      (pairwise_stableSort le total trans l)

theorem stableSort_of_pairwise (le : α → α → Bool) :
    ∀ l : List α, List.Pairwise (fun x y => le x y = true) l → stableSort le l = l
  | [], _ => rfl
  | a :: l, h => by
    rcases List.pairwise_cons.mp h with ⟨ha, hl⟩
    simp only [stableSort, stableSort_of_pairwise le l hl]
    cases l with
    | nil => rfl
    | cons b t => simp [insortWord, ha b (List.mem_cons_self b t)]

theorem pairwise_perm_eq (le : α → α → Bool) :
    ∀ l₁ l₂ : List α,
      (∀ a ∈ l₁, ∀ b ∈ l₁, le a b = true → le b a = true → a = b) →
      List.Perm l₁ l₂ →
      List.Pairwise (fun x y => le x y = true) l₁ →
      List.Pairwise (fun x y => le x y = true) l₂ → l₁ = l₂
  | [], l₂, _, hp, _, _ => (hp.nil_eq).symm ▸ rfl
  | a :: t₁, l₂, anti, hp, h₁, h₂ => by
    cases l₂ with
    | nil => exact absurd hp.symm.nil_eq (by simp)
    | cons b t₂ =>
      rcases List.pairwise_cons.mp h₁ with ⟨ha, ht₁⟩
      rcases List.pairwise_cons.mp h₂ with ⟨hb, ht₂⟩
      have hab : a = b := by
        by_contra hne
        have hamem : a ∈ t₂ := by
          have := hp.mem_iff.mp (List.mem_cons_self a t₁)
          exact (List.mem_cons.mp this).resolve_left hne
        have hbmem : b ∈ t₁ := by
          have := hp.mem_iff.mpr (List.mem_cons_self b t₂)
          exact (List.mem_cons.mp this).resolve_left (fun h => hne h.symm)
        exact hne (anti a (List.mem_cons_self a t₁) b (List.mem_cons.mpr (Or.inr hbmem))
          (ha b hbmem) (hb a hamem))
      subst hab
      have htp : List.Perm t₁ t₂ := hp.cons_inv
      have : t₁ = t₂ := by
        refine pairwise_perm_eq le t₁ t₂ ?_ htp ht₁ ht₂
        intro x hx y hy
        exact anti x (List.mem_cons_of_mem a hx) y (List.mem_cons_of_mem a hy)
      rw [this]

/-! ### The word bag: membership, freedom from duplicates -/

/-- `open(path)` followed by `readlines` succeeds on this path. -/
def FS.readOk (fs : FS) (path : String) : Bool :=
  (fs.content path).isSome && !fs.readFails path

theorem mem_nfcInsert (nfc : String → String) (bag : List String) (w x : String) :
    x ∈ nfcInsert nfc bag w ↔ x ∈ bag ∨ nfc w = x := by
  unfold nfcInsert
  split
  · rename_i h
    constructor
    · exact Or.inl
    · rintro (hx | rfl)
      · exact hx
      · exact h
  · simp [or_comm, eq_comm]

theorem nfcInsert_nodup (nfc : String → String) (bag : List String) (w : String)
    (h : bag.Nodup) : (nfcInsert nfc bag w).Nodup := by
  unfold nfcInsert
  split
  · exact h
  · rename_i hmem
    simpa [List.nodup_append, h] using hmem

theorem mem_buildBag (nfc : String → String) :
    ∀ (ws bag : List String) (x : String),
      x ∈ buildBag nfc bag ws ↔ x ∈ bag ∨ ∃ w ∈ ws, nfc w = x
  | [], bag, x => by simp [buildBag]
  | w :: ws, bag, x => by
    have := mem_buildBag nfc ws (nfcInsert nfc bag w) x
    simp only [buildBag, List.foldl_cons] at this ⊢
    rw [this, mem_nfcInsert]
    constructor
    · rintro ((hx | hw) | ⟨y, hy, rfl⟩)
      · exact Or.inl hx
      · exact Or.inr ⟨w, List.mem_cons_self w ws, hw⟩
      · exact Or.inr ⟨y, List.mem_cons_of_mem w hy, rfl⟩
    · rintro (hx | ⟨y, hy, rfl⟩)
      · exact Or.inl (Or.inl hx)
      · rcases List.mem_cons.mp hy with rfl | hy
        · exact Or.inl (Or.inr rfl)
        · exact Or.inr ⟨y, hy, rfl⟩

theorem buildBag_nodup (nfc : String → String) :
    ∀ (ws bag : List String), bag.Nodup → (buildBag nfc bag ws).Nodup
  | [], bag, h => h
  | w :: ws, bag, h =>
    buildBag_nodup nfc ws (nfcInsert nfc bag w) (nfcInsert_nodup nfc bag w h)

/-- On input words that are already normal forms and globally
duplicate-free, building the bag just appends them in order. -/
theorem buildBag_eq_append (nfc : String → String) :
    ∀ (ws bag : List String), (∀ w ∈ ws, nfc w = w) → (bag ++ ws).Nodup →
      buildBag nfc bag ws = bag ++ ws
  | [], bag, _, _ => by simp [buildBag]
  | w :: ws, bag, hfix, hnd => by
    have hw : nfc w = w := hfix w (List.mem_cons_self w ws)
    have hwbag : w ∉ bag := by
      intro hmem
      have := List.disjoint_of_nodup_append hnd hmem (List.mem_cons_self w ws)
      exact this
    have step : nfcInsert nfc bag w = bag ++ [w] := by
      unfold nfcInsert
      rw [hw, if_neg hwbag]
    simp only [buildBag, List.foldl_cons, step]
    have := buildBag_eq_append nfc ws (bag ++ [w])
      (fun y hy => hfix y (List.mem_cons_of_mem w hy))
      (by simpa using hnd)
    simpa using this

/-! ### The extra-files loop -/

theorem collect_extra_words_ok_nodup (fs : FS) (nfc : String → String) :
    ∀ (paths bag bag' : List String),
      collect_extra_words fs nfc paths bag = .ok bag' → bag.Nodup → bag'.Nodup
  | [], bag, bag', h, hnd => by
    simp only [collect_extra_words] at h
    cases h
    exact hnd
  | path :: rest, bag, bag', h, hnd => by
    simp only [collect_extra_words] at h
    split at h
    · split at h
      · exact absurd h (by simp)
      · rename_i c hc hr
        exact collect_extra_words_ok_nodup fs nfc rest _ bag' h
          (buildBag_nodup nfc (readlines c) bag hnd)
    · exact absurd h (by simp)

theorem mem_collect_extra_words_ok (fs : FS) (nfc : String → String) :
    ∀ (paths bag bag' : List String) (x : String),
      collect_extra_words fs nfc paths bag = .ok bag' →
      (x ∈ bag' ↔ x ∈ bag ∨ ∃ path ∈ paths, ∃ c, fs.content path = some c ∧
        ∃ w ∈ readlines c, nfc w = x)
  | [], bag, bag', x, h => by
    simp only [collect_extra_words] at h
    cases h
    simp
  | path :: rest, bag, bag', x, h => by
    simp only [collect_extra_words] at h
    split at h
    · split at h
      · exact absurd h (by simp)
      · rename_i c hc hr
        rw [mem_collect_extra_words_ok fs nfc rest _ bag' x h, mem_buildBag]
        constructor
        · rintro ((hx | ⟨w, hw, rfl⟩) | ⟨q, hq, d, hd, w, hw, rfl⟩)
          · exact Or.inl hx
          · exact Or.inr ⟨path, List.mem_cons_self path rest, c, hc, w, hw, rfl⟩
          · exact Or.inr ⟨q, List.mem_cons_of_mem path hq, d, hd, w, hw, rfl⟩
        · rintro (hx | ⟨q, hq, d, hd, w, hw, rfl⟩)
          · exact Or.inl (Or.inl hx)
          · rcases List.mem_cons.mp hq with rfl | hq
            · rw [hc] at hd
              cases hd
              exact Or.inl (Or.inr ⟨w, hw, rfl⟩)
            · exact Or.inr ⟨q, hq, d, hd, w, hw, rfl⟩
    · exact absurd h (by simp)

theorem collect_extra_words_error (fs : FS) (nfc : String → String) :
    ∀ (paths bag : List String) (e : PyErr),
      collect_extra_words fs nfc paths bag = .error e →
      ∃ path ∈ paths, fs.readOk path = false ∧
        e = .systemExit ("Could not read " ++ path ++ ". Aborting.")
  | [], bag, e, h => by simp [collect_extra_words] at h
  | path :: rest, bag, e, h => by
    simp only [collect_extra_words] at h
    split at h
    · rename_i c hc
      split at h
      · rename_i hr
        cases h
        exact ⟨path, List.mem_cons_self path rest, by simp [FS.readOk, hr], rfl⟩
      · rcases collect_extra_words_error fs nfc rest _ e h with ⟨q, hq, hro, he⟩
        exact ⟨q, List.mem_cons_of_mem path hq, hro, he⟩
    · rename_i hc
      cases h
      exact ⟨path, List.mem_cons_self path rest,
        by simp [FS.readOk, Option.isNone_iff_eq_none.mpr hc], rfl⟩

/-- Reading the extra files fails precisely at the first unreadable path:
every path before it was read, and the raised `SystemExit` names it. -/
theorem collect_extra_words_first_failure (fs : FS) (nfc : String → String) :
    ∀ (ps₁ : List String) (p : String) (ps₂ bag : List String),
      (∀ q ∈ ps₁, fs.readOk q = true) → fs.readOk p = false →
      collect_extra_words fs nfc (ps₁ ++ p :: ps₂) bag =
        .error (.systemExit ("Could not read " ++ p ++ ". Aborting."))
  | [], p, ps₂, bag, _, hp => by
    simp only [List.nil_append, collect_extra_words]
    cases hcp : fs.content p with
    | none => rfl
    | some c =>
      simp only [FS.readOk, hcp, Option.isSome_some, Bool.true_and,
        Bool.not_eq_false'] at hp
      simp [hp]
  | q :: ps₁, p, ps₂, bag, hok, hp => by
    have hq := hok q (List.mem_cons_self q ps₁)
    simp only [FS.readOk, Bool.and_eq_true, Bool.not_eq_true'] at hq
    rcases hq with ⟨hsome, hrf⟩
    rcases Option.isSome_iff_exists.mp hsome with ⟨c, hc⟩
    simp only [List.cons_append, collect_extra_words, hc, hrf]
    exact collect_extra_words_first_failure fs nfc ps₁ p ps₂ _
      (fun r hr => hok r (List.mem_cons_of_mem q hr)) hp

/-! ### Registry validation: structure of success and failure -/

theorem validateEntries_ok_shape (root idx : String) (fs : FS) :
    ∀ (entries : List (String × JVal)) (mapping : List (String × String)),
      validateEntries root idx fs entries = .ok mapping →
      entries = mapping.map (fun kv => (kv.1, JVal.str kv.2)) ∧
      ∀ kv ∈ mapping, (fs.content (langFilePath root kv.2)).isSome = true
  | [], mapping, h => by
    simp only [validateEntries] at h
    cases h
    simp
  | (key, JVal.str s) :: rest, mapping, h => by
    simp only [validateEntries] at h
    split at h
    · rename_i hex
      split at h
      · rename_i tail htail
        cases h
        rcases validateEntries_ok_shape root idx fs rest tail htail with ⟨he, hm⟩
        refine ⟨by simp [← he], ?_⟩
        intro kv hkv
        rcases List.mem_cons.mp hkv with rfl | hkv
        · exact hex
        · exact hm kv hkv
      · exact absurd h (by simp)
    · exact absurd h (by simp)
  | (key, JVal.other) :: rest, mapping, h => by
    simp [validateEntries] at h

theorem validateEntries_error_of_bad (root idx : String) (fs : FS) :
    ∀ (entries : List (String × JVal)) (key : String) (v : JVal),
      (key, v) ∈ entries →
      (∀ s, v = JVal.str s → (fs.content (langFilePath root s)).isSome = false) →
      ∃ e, validateEntries root idx fs entries = .error e
  | (k₀, JVal.str s₀) :: rest, key, v, hmem, hbad => by
    simp only [validateEntries]
    by_cases hex : (fs.content (langFilePath root s₀)).isSome = true
    · rcases List.mem_cons.mp hmem with heq | hmem
      · cases heq
        exact absurd hex (by simp [hbad s₀ rfl])
      · rcases validateEntries_error_of_bad root idx fs rest key v hmem hbad with ⟨e, he⟩
        exact ⟨e, by rw [if_pos hex, he]⟩
    · exact ⟨_, by rw [if_neg hex]⟩
  | (k₀, JVal.other) :: rest, key, v, hmem, hbad => ⟨_, rfl⟩

theorem validateEntries_error_shape (root idx : String) (fs : FS) :
    ∀ (entries : List (String × JVal)) (e : PyErr),
      validateEntries root idx fs entries = .error e → ∃ m, e = .LanguageDataError m
  | [], e, h => by simp [validateEntries] at h
  | (key, JVal.str s) :: rest, e, h => by
    simp only [validateEntries] at h
    split at h
    · split at h
      · exact absurd h (by simp)
      · rename_i e' he'
        cases h
        exact validateEntries_error_shape root idx fs rest _ he'
    · cases h
      exact ⟨_, rfl⟩
  | (key, JVal.other) :: rest, e, h => by
    cases h
    exact ⟨_, rfl⟩

/-! ### Inversion of a merge: what a success, and what a failure, imply -/

theorem read_language_file_error_shape (p : LanguageDataIndexPayload) (fs : FS)
    (lang : String) (e : PyErr) (h : p.read_language_file fs lang = .error e) :
    ∃ m, e = .LanguageDataError m := by
  unfold LanguageDataIndexPayload.read_language_file at h
  split at h
  · cases h; exact ⟨_, rfl⟩
  · split at h
    · split at h
      · cases h; exact ⟨_, rfl⟩
      · exact absurd h (by simp)
    · cases h; exact ⟨_, rfl⟩

theorem merge_word_bag_error_shape (nfc : String → String) (fs : FS)
    (p : LanguageDataIndexPayload) (lang : String) (new_paths : List String) (e : PyErr)
    (h : merge_word_bag nfc fs p lang new_paths = .error e) :
    (∃ m, e = .LanguageDataError m) ∨
      ∃ q ∈ new_paths, fs.readOk q = false ∧
        e = .systemExit ("Could not read " ++ q ++ ". Aborting.") := by
  unfold merge_word_bag at h
  split at h
  · rename_i e' he'
    cases h
    exact Or.inl (read_language_file_error_shape p fs lang _ he')
  · exact Or.inr (collect_extra_words_error fs nfc _ _ e h)

theorem merge_ok_inversion (icu : Option ICUCap) (nfc : String → String) (fs : FS)
    (p : LanguageDataIndexPayload) (lang : String) (new_paths : List String) (fs' : FS)
    (h : merge_language_files icu nfc fs p lang new_paths = (fs', none)) :
    ∃ bag out stem, merge_word_bag nfc fs p lang new_paths = .ok bag ∧
      sort_word_list icu lang bag = .ok out ∧
      p.path_mapping.lookup lang = some stem ∧
      fs.writeBehavior (langFilePath p.root_path stem) = .succeeds ∧
      fs' = fs.setContent (langFilePath p.root_path stem) (String.join out) := by
  unfold merge_language_files at h
  split at h
  · exact absurd h (by simp)
  · rename_i bag hbag
    split at h
    · exact absurd h (by simp)
    · rename_i out hout
      unfold LanguageDataIndexPayload.write_to_language_file at h
      split at h
      · exact absurd h (by simp)
      · rename_i stem hstem
        split at h
        · exact absurd h (by simp)
        · exact absurd h (by simp)
        · rename_i hwb
          injection h with h₁ h₂
          exact ⟨bag, out, stem, hbag, hout, hstem, hwb, h₁.symm⟩

theorem merge_error_inversion (icu : Option ICUCap) (nfc : String → String) (fs : FS)
    (p : LanguageDataIndexPayload) (lang : String) (new_paths : List String) (fs' : FS)
    (e : PyErr) (h : merge_language_files icu nfc fs p lang new_paths = (fs', some e)) :
    fs' = fs ∨
      ∃ stem n bag out, p.path_mapping.lookup lang = some stem ∧
        merge_word_bag nfc fs p lang new_paths = .ok bag ∧
        sort_word_list icu lang bag = .ok out ∧
        fs.writeBehavior (langFilePath p.root_path stem) = .failsAfter n ∧
        fs' = fs.setContent (langFilePath p.root_path stem) ((String.join out).take n) := by
  unfold merge_language_files at h
  split at h
  · injection h with h₁ h₂
    exact Or.inl h₁.symm
  · rename_i bag hbag
    split at h
    · injection h with h₁ h₂
      exact Or.inl h₁.symm
    · rename_i out hout
      unfold LanguageDataIndexPayload.write_to_language_file at h
      split at h
      · injection h with h₁ h₂
        exact Or.inl h₁.symm
      · rename_i stem hstem
        split at h
        · injection h with h₁ h₂
          exact Or.inl h₁.symm
        · rename_i n hwb
          injection h with h₁ h₂
          exact Or.inr ⟨stem, n, bag, out, hstem, hbag, hout, hwb, h₁.symm⟩
        · exact absurd h (by simp)

/-! ### Sample instances used by the witnesses -/

/-- A collation capability with a locale for `"en"` only, whose
IDENTICAL-strength sort key is the codepoint sequence (injective, as an
IDENTICAL-strength key is on NFC-distinct strings). -/
def sampleCap : ICUCap :=
  ⟨fun l => l == "en", fun _ w => w.data.map Char.toNat⟩

/-- A validated one-language registry payload. -/
def samplePayload : LanguageDataIndexPayload := ⟨"root", [("en", "english")]⟩

/-- A filesystem holding only the unsorted English word list. -/
def sampleFS : FS :=
  ⟨fun q => if q = "root/english.txt" then some "b\na\n" else none,
    fun _ => false, fun _ => .succeeds⟩

/-! ### The claims -/

/-- C4: registry load returns a mapping only if the registry document is
readable, parses as a key-to-string mapping, and every mapped stem resolves
to an existing `<stem>.txt` under the root; any violation rejects the whole
registry with an error before the mapping is returned, so a returned
registry has had every entry checked. -/
theorem registry_load_validates_every_entry (root : String) (doc : RegistryDoc) (fs : FS) :
    (∀ pl, LanguageDataIndex_enter root doc fs = .ok pl →
      pl.root_path = root ∧
      doc = .dict (pl.path_mapping.map (fun kv => (kv.1, JVal.str kv.2))) ∧
      ∀ kv ∈ pl.path_mapping, (fs.content (langFilePath root kv.2)).isSome = true) ∧
    ((doc = .unreadable ∨ doc = .unparseable ∨ doc = .notDict ∨
        ∃ entries key v, doc = .dict entries ∧ (key, v) ∈ entries ∧
          ∀ s, v = JVal.str s → (fs.content (langFilePath root s)).isSome = false) →
      ∃ e, LanguageDataIndex_enter root doc fs = .error e) := by
  constructor
  · intro pl h
    unfold LanguageDataIndex_enter at h
    cases doc with
    | unreadable => exact absurd h (by simp)
    | unparseable => exact absurd h (by simp)
    | notDict => exact absurd h (by simp)
    | dict entries =>
      simp only at h
      split at h
      · exact absurd h (by simp)
      · rename_i mapping hval
        cases h
        rcases validateEntries_ok_shape root _ fs entries mapping hval with ⟨he, hm⟩
        exact ⟨rfl, by rw [← he], hm⟩
  · rintro (rfl | rfl | rfl | ⟨entries, key, v, rfl, hmem, hbad⟩)
    · exact ⟨_, rfl⟩
    · exact ⟨_, rfl⟩
    · exact ⟨_, rfl⟩
    · rcases validateEntries_error_of_bad root (root ++ "/languages.json") fs entries key v
        hmem hbad with ⟨e, he⟩
      exact ⟨e, by simp only [LanguageDataIndex_enter, he]⟩

/-- C5: the sorter fails with the collation-unavailable error when the ICU
capability is absent and with the unsupported-locale error when no locale
exists for the code, and a sorted result is produced only through the
locale's IDENTICAL-strength collation key — never by a fallback
byte/codepoint ordering. -/
theorem sorter_requires_collation_capability (lang : String) (words : List String) :
    sort_word_list none lang words =
      .error (.LanguageDataError "PyICU is needed for proper unicode sorting") ∧
    (∀ cap : ICUCap, cap.hasLocale lang = false →
      sort_word_list (some cap) lang words =
        .error (.LanguageDataError ("No ICU locale available for language " ++ pyRepr lang))) ∧
    (∀ (icu : Option ICUCap) (out : List String),
      sort_word_list icu lang words = .ok out →
      ∃ cap, icu = some cap ∧ cap.hasLocale lang = true ∧
        out = stableSort (wordLe (cap.sortKey lang)) words) := by
  refine ⟨rfl, fun cap h => by simp [sort_word_list, h], ?_⟩
  intro icu out h
  cases icu with
  | none => exact absurd h (by simp [sort_word_list])
  | some cap =>
    by_cases hl : cap.hasLocale lang = true
    · refine ⟨cap, rfl, hl, ?_⟩
      simp only [sort_word_list, hl, if_true] at h
      cases h
      rfl
    · simp only [sort_word_list, hl, if_false] at h
      exact absurd h (by simp)

/-- C6: every operation invoked with a language code absent from the
registry mapping fails with the unrecognized-language error, and the
filesystem is returned unchanged — the result does not depend on the
filesystem at all, so no language file is read or written. -/
theorem unknown_language_rejected_without_io (p : LanguageDataIndexPayload) (lang : String)
    (h : p.path_mapping.lookup lang = none) :
    p.get_path lang = .error (.LanguageDataError ("Unrecognized language " ++ pyRepr lang)) ∧
    (∀ fs, p.read_language_file fs lang =
      .error (.LanguageDataError ("Unrecognized language " ++ pyRepr lang))) ∧
    (∀ fs words, p.write_to_language_file fs lang words =
      (fs, some (.LanguageDataError ("Unrecognized language " ++ pyRepr lang)))) ∧
    (∀ icu nfc fs new_paths, merge_language_files icu nfc fs p lang new_paths =
      (fs, some (.LanguageDataError ("Unrecognized language " ++ pyRepr lang)))) := by
  refine ⟨?_, fun fs => ?_, fun fs words => ?_, fun icu nfc fs new_paths => ?_⟩
  · simp [LanguageDataIndexPayload.get_path, h]
  · simp [LanguageDataIndexPayload.read_language_file, h]
  · simp [LanguageDataIndexPayload.write_to_language_file, h]
  · simp [merge_language_files, merge_word_bag,
      LanguageDataIndexPayload.read_language_file, h]

/-- Witness for C6 at the sample registry and the absent code `"zz"`. -/
theorem unknown_language_rejected_without_io_witness :
    samplePayload.path_mapping.lookup "zz" = none ∧
    merge_language_files (some sampleCap) (fun s => s) sampleFS samplePayload "zz" [] =
      (sampleFS, some (.LanguageDataError ("Unrecognized language " ++ pyRepr "zz"))) :=
  ⟨by decide,
    (unknown_language_rejected_without_io samplePayload "zz" (by decide)).2.2.2
      (some sampleCap) (fun s => s) sampleFS []⟩

/-- C3: when the target language file was read but some supplied extra file
is unreadable, the merge aborts at the first unreadable path with the fatal
`SystemExit` naming that path, and the filesystem — in particular the
target language file — is returned unchanged: no write has occurred. -/
theorem merge_unreadable_extra_aborts_unchanged (icu : Option ICUCap)
    (nfc : String → String) (fs : FS) (p : LanguageDataIndexPayload) (lang : String)
    (lines : List String) (ps₁ : List String) (q : String) (ps₂ : List String)
    (hread : p.read_language_file fs lang = .ok lines)
    (hok : ∀ r ∈ ps₁, fs.readOk r = true)
    (hbad : fs.readOk q = false) :
    merge_language_files icu nfc fs p lang (ps₁ ++ q :: ps₂) =
      (fs, some (.systemExit ("Could not read " ++ q ++ ". Aborting."))) := by
  have hbag : merge_word_bag nfc fs p lang (ps₁ ++ q :: ps₂) =
      .error (.systemExit ("Could not read " ++ q ++ ". Aborting.")) := by
    unfold merge_word_bag
    rw [hread]
    exact collect_extra_words_first_failure fs nfc ps₁ q ps₂ _ hok hbad
  unfold merge_language_files
  rw [hbag]

/-- Witness for C3: merging a nonexistent extra file into the sample
English list aborts with the `SystemExit` naming it and leaves the
filesystem untouched. -/
theorem merge_unreadable_extra_aborts_unchanged_witness :
    merge_language_files (some sampleCap) (fun s => s) sampleFS samplePayload "en"
        ["extra.txt"] =
      (sampleFS, some (.systemExit ("Could not read extra.txt. Aborting."))) :=
  merge_unreadable_extra_aborts_unchanged (some sampleCap) (fun s => s) sampleFS
    samplePayload "en" ["b\n", "a\n"] [] "extra.txt" [] rfl
    (fun r hr => absurd hr (List.not_mem_nil r)) (by decide)

/-- C10: every failure of registry loading, language-file reading and
writing, and sorting is raised as `LanguageDataError`, distinguishable only
by message; a failing merge raises either a `LanguageDataError` or — for an
unreadable extra file, and only then — the `SystemExit` naming the path. -/
theorem failures_are_language_data_error_except_extra_read :
    (∀ root doc fs e, LanguageDataIndex_enter root doc fs = .error e →
      ∃ m, e = .LanguageDataError m) ∧
    (∀ (p : LanguageDataIndexPayload) (fs : FS) (lang : String) (e : PyErr),
      p.read_language_file fs lang = .error e → ∃ m, e = .LanguageDataError m) ∧
    (∀ (p : LanguageDataIndexPayload) (fs : FS) (lang : String) (words : List String)
      (e : PyErr), (p.write_to_language_file fs lang words).2 = some e →
      ∃ m, e = .LanguageDataError m) ∧
    (∀ (icu : Option ICUCap) (lang : String) (words : List String) (e : PyErr),
      sort_word_list icu lang words = .error e → ∃ m, e = .LanguageDataError m) ∧
    (∀ (icu : Option ICUCap) (nfc : String → String) (fs : FS)
      (p : LanguageDataIndexPayload) (lang : String) (new_paths : List String)
      (fs' : FS) (e : PyErr),
      merge_language_files icu nfc fs p lang new_paths = (fs', some e) →
      (∃ m, e = .LanguageDataError m) ∨
        ∃ q ∈ new_paths, fs.readOk q = false ∧
          e = .systemExit ("Could not read " ++ q ++ ". Aborting.")) := by
  have hwrite : ∀ (p : LanguageDataIndexPayload) (fs : FS) (lang : String)
      (words : List String) (e : PyErr),
      (p.write_to_language_file fs lang words).2 = some e →
      ∃ m, e = .LanguageDataError m := by
    intro p fs lang words e h
    unfold LanguageDataIndexPayload.write_to_language_file at h
    split at h
    · cases h; exact ⟨_, rfl⟩
    · split at h
      · cases h; exact ⟨_, rfl⟩
      · cases h; exact ⟨_, rfl⟩
      · exact absurd h (by simp)
  have hsort : ∀ (icu : Option ICUCap) (lang : String) (words : List String) (e : PyErr),
      sort_word_list icu lang words = .error e → ∃ m, e = .LanguageDataError m := by
    intro icu lang words e h
    cases icu with
    | none => cases h; exact ⟨_, rfl⟩
    | some cap =>
      by_cases hl : cap.hasLocale lang = true
      · simp [sort_word_list, hl] at h
      · simp only [sort_word_list, hl, if_false] at h
        cases h
        exact ⟨_, rfl⟩
  refine ⟨?_, ?_, hwrite, hsort, ?_⟩
  · intro root doc fs e h
    cases doc with
    | unreadable => cases h; exact ⟨_, rfl⟩
    | unparseable => cases h; exact ⟨_, rfl⟩
    | notDict => cases h; exact ⟨_, rfl⟩
    | dict entries =>
      unfold LanguageDataIndex_enter at h
      simp only at h
      split at h
      · rename_i e' he'
        cases h
        exact validateEntries_error_shape root _ fs entries _ he'
      · exact absurd h (by simp)
  · exact read_language_file_error_shape
  · intro icu nfc fs p lang new_paths fs' e h
    unfold merge_language_files at h
    split at h
    · rename_i e' he'
      injection h with h₁ h₂
      injection h₂ with h₂
      subst h₂
      exact merge_word_bag_error_shape nfc fs p lang new_paths _ he'
    · rename_i bag hbag
      split at h
      · rename_i e' he'
        injection h with h₁ h₂
        injection h₂ with h₂
        subst h₂
        exact Or.inl (hsort icu lang bag _ he')
      · rename_i out hout
        exact Or.inl (hwrite p fs lang out e (by rw [h]))

/-- C9: `sort-all` runs the merge pipeline once per registered code in the
registry's insertion order; when every code before `c` succeeds and `c`
fails, the whole invocation stops with `c`'s error, the filesystem keeping
the rewrites of the codes processed before `c`, while the codes after `c`
are never processed (the result does not depend on them). -/
theorem sort_all_aborts_on_first_failure (icu : Option ICUCap) (nfc : String → String)
    (p : LanguageDataIndexPayload) (cs₁ : List String) (c : String) (cs₂ : List String)
    (fs fs₁ fs₂ : FS) (e : PyErr)
    (hcodes : p.get_lang_codes = cs₁ ++ c :: cs₂)
    (hpre : sort_all_loop icu nfc p fs cs₁ = (fs₁, none))
    (hfail : merge_language_files icu nfc fs₁ p c [] = (fs₂, some e)) :
    cli_sort_all icu nfc fs p = (fs₂, some e) := by
  unfold cli_sort_all
  rw [hcodes]
  clear hcodes
  induction cs₁ generalizing fs with
  | nil =>
    simp only [sort_all_loop] at hpre
    injection hpre with h₁ h₂
    subst h₁
    simp only [List.nil_append, sort_all_loop, hfail]
  | cons a rest ih =>
    cases hm : merge_language_files icu nfc fs p a [] with
    | mk fs'' r =>
      cases r with
      | none =>
        simp only [sort_all_loop] at hpre
        rw [hm] at hpre
        rw [List.cons_append]
        simp only [sort_all_loop]
        rw [hm]
        exact ih fs'' hpre
      | some e' =>
        simp only [sort_all_loop] at hpre
        rw [hm] at hpre
        exact absurd hpre (by simp)

/-- A two-language registry: English, then a code with no ICU locale. -/
def samplePayload2 : LanguageDataIndexPayload :=
  ⟨"root", [("en", "english"), ("xx", "extinct")]⟩

/-- Word lists for both languages of `samplePayload2`. -/
def sampleFS2 : FS :=
  ⟨fun q => if q = "root/english.txt" then some "b\na\n" else
      if q = "root/extinct.txt" then some "a\n" else none,
    fun _ => false, fun _ => .succeeds⟩

/-- Witness for C9: `sort-all` over the two-language registry rewrites the
English file (it was `"b\na\n"`, it is now sorted) and then aborts on the
locale-less second code with its error. -/
theorem sort_all_aborts_on_first_failure_witness :
    (cli_sort_all (some sampleCap) (fun s => s) sampleFS2 samplePayload2).2 =
      some (.LanguageDataError ("No ICU locale available for language " ++ pyRepr "xx")) ∧
    (cli_sort_all (some sampleCap) (fun s => s) sampleFS2 samplePayload2).1.content
        "root/english.txt" = some "a\nb\n" ∧
    sampleFS2.content "root/english.txt" = some "b\na\n" := by
  have h := sort_all_aborts_on_first_failure (some sampleCap) (fun s => s) samplePayload2
    ["en"] "xx" [] sampleFS2
    (sampleFS2.setContent (langFilePath "root" "english")
      (String.join (stableSort (wordLe (sampleCap.sortKey "en")) (readlines "b\na\n"))))
    (sampleFS2.setContent (langFilePath "root" "english")
      (String.join (stableSort (wordLe (sampleCap.sortKey "en")) (readlines "b\na\n"))))
    (.LanguageDataError ("No ICU locale available for language " ++ pyRepr "xx"))
    rfl rfl rfl
  refine ⟨by rw [h], by rw [h]; rfl, rfl⟩

/-- A successful sort came from a present capability and an available
locale, and is the stable sort by that locale's collation key. -/
theorem sort_word_list_ok_inversion (icu : Option ICUCap) (lang : String)
    (words out : List String) (h : sort_word_list icu lang words = .ok out) :
    ∃ cap, icu = some cap ∧ cap.hasLocale lang = true ∧
      out = stableSort (wordLe (cap.sortKey lang)) words := by
  cases icu with
  | none => exact absurd h (by simp [sort_word_list])
  | some cap =>
    by_cases hl : cap.hasLocale lang = true
    · simp only [sort_word_list, hl, if_true] at h
      cases h
      exact ⟨cap, rfl, hl, rfl⟩
    · simp only [sort_word_list, hl, if_false] at h
      exact absurd h (by simp)

/-- Overwriting a file with the content it already has changes nothing. -/
theorem FS.setContent_self (fs : FS) (q c : String) (h : fs.content q = some c) :
    fs.setContent q c = fs := by
  cases fs with
  | mk content readFails wb =>
    simp only [FS.setContent]
    congr 1
    funext r
    by_cases hr : r = q
    · subst hr
      simpa using h.symm
    · simp [hr]

/-- C2: when a merge succeeds and the raw input words (the target file's
lines plus lines of readable extra files) contain a word in two
byte-distinct but canonically equivalent forms — equal NFC images — the
sorted output that gets written contains the normalized form exactly once,
and every written word is an NFC image: normalization precedes set
insertion, so deduplication is semantic, not surface-string. -/
theorem merge_dedups_canonically_equivalent_forms (icu : Option ICUCap)
    (nfc : String → String) (fs : FS) (p : LanguageDataIndexPayload) (lang : String)
    (new_paths : List String) (fs' : FS) (lines : List String) (w₁ w₂ : String)
    (hread : p.read_language_file fs lang = .ok lines)
    (hmerge : merge_language_files icu nfc fs p lang new_paths = (fs', none))
    (h₁ : w₁ ∈ lines ∨ ∃ q ∈ new_paths, ∃ c, fs.content q = some c ∧ w₁ ∈ readlines c)
    (h₂ : w₂ ∈ lines ∨ ∃ q ∈ new_paths, ∃ c, fs.content q = some c ∧ w₂ ∈ readlines c)
    (hne : w₁ ≠ w₂) (heq : nfc w₁ = nfc w₂) :
    ∃ bag out stem, merge_word_bag nfc fs p lang new_paths = .ok bag ∧
      sort_word_list icu lang bag = .ok out ∧
      out.count (nfc w₁) = 1 ∧ out.count (nfc w₂) = 1 ∧
      (∀ x ∈ out, ∃ w, nfc w = x) ∧
      p.path_mapping.lookup lang = some stem ∧
      fs'.content (langFilePath p.root_path stem) = some (String.join out) := by
  rcases merge_ok_inversion icu nfc fs p lang new_paths fs' hmerge with
    ⟨bag, out, stem, hbag, hout, hstem, hwb, hfs'⟩
  have hcollect : collect_extra_words fs nfc new_paths (buildBag nfc [] lines) = .ok bag := by
    unfold merge_word_bag at hbag
    rw [hread] at hbag
    exact hbag
  have hmem : ∀ x, x ∈ bag ↔ (∃ w ∈ lines, nfc w = x) ∨
      ∃ q ∈ new_paths, ∃ c, fs.content q = some c ∧ ∃ w ∈ readlines c, nfc w = x := by
    intro x
    rw [mem_collect_extra_words_ok fs nfc new_paths _ bag x hcollect,
      mem_buildBag nfc lines [] x]
    simp
  have hnd : bag.Nodup :=
    collect_extra_words_ok_nodup fs nfc new_paths _ bag hcollect
      (buildBag_nodup nfc lines [] List.nodup_nil)
  have hw₁ : nfc w₁ ∈ bag := by
    rw [hmem]
    rcases h₁ with hl | ⟨q, hq, c, hc, hw⟩
    · exact Or.inl ⟨w₁, hl, rfl⟩
    · exact Or.inr ⟨q, hq, c, hc, w₁, hw, rfl⟩
  rcases sort_word_list_ok_inversion icu lang bag out hout with ⟨cap, hicu, hl, hsorted⟩
  have hperm : List.Perm out bag := hsorted ▸ stableSort_perm _ bag
  have hcount : out.count (nfc w₁) = 1 := by
    rw [hperm.count_eq]
    exact List.count_eq_one_of_mem hnd hw₁
  refine ⟨bag, out, stem, hbag, hout, hcount, by rw [← heq]; exact hcount, ?_, hstem, ?_⟩
  · intro x hx
    have : x ∈ bag := hperm.mem_iff.mp hx
    rcases (hmem x).mp this with ⟨w, _, hw⟩ | ⟨q, _, c, _, w, _, hw⟩
    · exact ⟨w, hw⟩
    · exact ⟨w, hw⟩
  · rw [hfs']
    simp [FS.setContent]

/-- The sample NFC normalizer for the witnesses: it maps the decomposed
spelling of a single word to its precomposed form and fixes everything
else. -/
def nfcSample : String → String :=
  fun s => if s = "café\n" then "café\n" else s

/-- A filesystem whose English list holds the same word in precomposed and
decomposed forms. -/
def sampleFSAccents : FS :=
  ⟨fun q => if q = "root/english.txt" then some "café\ncafé\n" else none,
    fun _ => false, fun _ => .succeeds⟩

/-- Witness for C2: merging the list holding the word in precomposed and
decomposed spellings leaves exactly one normalized occurrence in the
output. -/
theorem merge_dedups_canonically_equivalent_forms_witness :
    ∃ bag out stem,
      merge_word_bag nfcSample sampleFSAccents samplePayload "en" [] = .ok bag ∧
      sort_word_list (some sampleCap) "en" bag = .ok out ∧
      out.count (nfcSample "café\n") = 1 ∧
      out.count (nfcSample "café\n") = 1 ∧
      (∀ x ∈ out, ∃ w, nfcSample w = x) ∧
      samplePayload.path_mapping.lookup "en" = some stem ∧
      ((sampleFSAccents.setContent (langFilePath "root" "english")
          (String.join (stableSort (wordLe (sampleCap.sortKey "en"))
            (buildBag nfcSample [] (readlines "café\ncafé\n")))))).content
        (langFilePath "root" stem) = some (String.join out) :=
  merge_dedups_canonically_equivalent_forms (some sampleCap) nfcSample
    sampleFSAccents samplePayload "en" []
    (sampleFSAccents.setContent (langFilePath "root" "english")
      (String.join (stableSort (wordLe (sampleCap.sortKey "en"))
        (buildBag nfcSample [] (readlines "café\ncafé\n")))))
    ["café\n", "café\n"] "café\n" "café\n"
    rfl rfl (Or.inl (by decide)) (Or.inl (by decide)) (by decide) (by decide)

/-- C7: (idempotence) running the sort pipeline on a language file that is
already collation-sorted, deduplicated and normalization-fixed returns the
filesystem unchanged — the rewritten file is byte-identical; (determinism)
collation-sorting two presentations of the same word set (permutations of
one another, the IDENTICAL-strength keys being distinct on its members)
yields the same sequence. -/
theorem sort_pipeline_idempotent_and_deterministic :
    (∀ (cap : ICUCap) (nfc : String → String) (fs : FS) (p : LanguageDataIndexPayload)
      (lang stem c : String),
      p.path_mapping.lookup lang = some stem →
      fs.content (langFilePath p.root_path stem) = some c →
      fs.readFails (langFilePath p.root_path stem) = false →
      fs.writeBehavior (langFilePath p.root_path stem) = .succeeds →
      cap.hasLocale lang = true →
      (∀ w ∈ readlines c, nfc w = w) →
      (readlines c).Nodup →
      List.Pairwise (fun a b => wordLe (cap.sortKey lang) a b = true) (readlines c) →
      merge_language_files (some cap) nfc fs p lang [] = (fs, none)) ∧
    (∀ (cap : ICUCap) (lang : String) (b₁ b₂ : List String),
      List.Perm b₁ b₂ →
      (∀ a ∈ b₁, ∀ b ∈ b₁, cap.sortKey lang a = cap.sortKey lang b → a = b) →
      sort_word_list (some cap) lang b₁ = sort_word_list (some cap) lang b₂) := by
  constructor
  · intro cap nfc fs p lang stem c hstem hc hrf hwb hl hfix hnd hsorted
    have hread : p.read_language_file fs lang = .ok (readlines c) := by
      simp only [LanguageDataIndexPayload.read_language_file, hstem, hc, hrf]
      simp
    have hbag : merge_word_bag nfc fs p lang [] = .ok (readlines c) := by
      unfold merge_word_bag
      rw [hread]
      show Except.ok (buildBag nfc [] (readlines c)) = _
      rw [buildBag_eq_append nfc (readlines c) [] hfix (by simpa using hnd)]
      simp
    have hsort : sort_word_list (some cap) lang (readlines c) = .ok (readlines c) := by
      simp only [sort_word_list, hl, if_true]
      rw [stableSort_of_pairwise _ _ hsorted]
    unfold merge_language_files
    rw [hbag]
    show (match sort_word_list (some cap) lang (readlines c) with
      | .error e => (fs, some e)
      | .ok words => p.write_to_language_file fs lang words) = (fs, none)
    rw [hsort]
    show p.write_to_language_file fs lang (readlines c) = (fs, none)
    unfold LanguageDataIndexPayload.write_to_language_file
    rw [hstem]
    simp only [hwb]
    rw [join_readlines, FS.setContent_self fs _ c hc]
  · intro cap lang b₁ b₂ hperm hinj
    by_cases hl : cap.hasLocale lang = true
    · simp only [sort_word_list, hl, if_true]
      congr 1
      apply pairwise_perm_eq (wordLe (cap.sortKey lang))
      · intro a ha b hb hab hba
        exact hinj a ((mem_stableSort _ b₁ a).mp ha) b ((mem_stableSort _ b₁ b).mp hb)
          (keyLe_antisymm _ _ hab hba)
      · exact (stableSort_perm _ b₁).trans (hperm.trans (stableSort_perm _ b₂).symm)
      · exact pairwise_stableSort _ (wordLe_total _) (wordLe_trans _) b₁
      · exact pairwise_stableSort _ (wordLe_total _) (wordLe_trans _) b₂
    · simp [sort_word_list, hl]

/-- A filesystem whose English list is already sorted, deduplicated and
normal. -/
def sampleFSSorted : FS :=
  ⟨fun q => if q = "root/english.txt" then some "a\nb\n" else none,
    fun _ => false, fun _ => .succeeds⟩

/-- Witness for C7: re-sorting the already sorted list leaves the
filesystem untouched, and sorting two orderings of the same set agrees. -/
theorem sort_pipeline_idempotent_and_deterministic_witness :
    merge_language_files (some sampleCap) (fun s => s) sampleFSSorted samplePayload "en" [] =
      (sampleFSSorted, none) ∧
    sort_word_list (some sampleCap) "en" ["b\n", "a\n"] =
      sort_word_list (some sampleCap) "en" ["a\n", "b\n"] :=
  ⟨sort_pipeline_idempotent_and_deterministic.1 sampleCap (fun s => s) sampleFSSorted
      samplePayload "en" "english" "a\nb\n" rfl rfl rfl rfl rfl
      (fun w _ => rfl) (by decide) (by decide),
    sort_pipeline_idempotent_and_deterministic.2 sampleCap "en" ["b\n", "a\n"]
      ["a\n", "b\n"] (by decide) (by decide)⟩

/-- A filesystem whose English list ends in a line with no terminator: the
same word occurs once with and once without a trailing newline. -/
def sampleFSUnterminated : FS :=
  ⟨fun q => if q = "root/english.txt" then some "b\nb" else none,
    fun _ => false, fun _ => .succeeds⟩

/-- C8: words are raw lines with their trailing newline retained — reading
keeps each terminator and a final unterminated fragment is a distinct word
of its own — and the output is written by concatenating the words with no
separator, so sorting the file `"b\nb"` (words `"b\n"` and `"b"`, kept
distinct through normalization and set insertion) writes `"bb\n"`: the
unterminated `"b"` sorts first and fuses with the following word. -/
theorem lines_keep_terminators_and_output_concatenates :
    readlines "b\nb" = ["b\n", "b"] ∧
    (∀ s : String, String.join (readlines s) = s) ∧
    ("b" : String) ≠ "b\n" ∧
    (merge_language_files (some sampleCap) (fun s => s) sampleFSUnterminated
      samplePayload "en" []).2 = none ∧
    (merge_language_files (some sampleCap) (fun s => s) sampleFSUnterminated
      samplePayload "en" []).1.content "root/english.txt" = some "bb\n" ∧
    readlines "bb\n" = ["bb\n"] :=
  ⟨by decide, join_readlines, by decide, by decide, by decide, by decide⟩

/-- A filesystem where opening the English list for writing succeeds (and
so truncates it) but the write then fails without putting down a single
character. -/
def sampleFSWriteFail : FS :=
  ⟨fun q => if q = "root/english.txt" then some "a\n" else none,
    fun _ => false,
    fun q => if q = "root/english.txt" then .failsAfter 0 else .succeeds⟩

/-- Counterexample to C1 as stated: a merge on this filesystem fails with
the write-failure `LanguageDataError`, yet the target file's content has
changed — `open(path, "w")` truncates the file as soon as the open
succeeds, so a `writelines` failure after a successful open leaves the
truncated file behind; the failed merge is not change-free. -/
theorem merge_write_failure_changes_target :
    (merge_language_files (some sampleCap) (fun s => s) sampleFSWriteFail
        samplePayload "en" []).2 =
      some (.LanguageDataError "Could not open language file english for writing") ∧
    (merge_language_files (some sampleCap) (fun s => s) sampleFSWriteFail
        samplePayload "en" []).1.content "root/english.txt" = some "" ∧
    sampleFSWriteFail.content "root/english.txt" = some "a\n" :=
  ⟨by decide, by decide, by decide⟩

/-- C1 (amended): a merge either fully completes — the bag is built, sorted
for the locale, and its join replaces the target file — or it fails; on
failure the target filesystem is unchanged unless the failure struck the
write itself after the target had been opened for writing (Python's mode
`"w"` truncates on open), in which case the target holds a prefix of
the intended content. -/
theorem merge_completes_or_leaves_target_unless_write_started (icu : Option ICUCap)
    (nfc : String → String) (fs : FS) (p : LanguageDataIndexPayload) (lang : String)
    (new_paths : List String) (fs' : FS) (r : Option PyErr)
    (h : merge_language_files icu nfc fs p lang new_paths = (fs', r)) :
    (r = none → ∃ bag out stem, merge_word_bag nfc fs p lang new_paths = .ok bag ∧
      sort_word_list icu lang bag = .ok out ∧
      p.path_mapping.lookup lang = some stem ∧
      fs' = fs.setContent (langFilePath p.root_path stem) (String.join out)) ∧
    (∀ e, r = some e → fs' = fs ∨
      ∃ stem n bag out, p.path_mapping.lookup lang = some stem ∧
        merge_word_bag nfc fs p lang new_paths = .ok bag ∧
        sort_word_list icu lang bag = .ok out ∧
        fs.writeBehavior (langFilePath p.root_path stem) = .failsAfter n ∧
        fs' = fs.setContent (langFilePath p.root_path stem) ((String.join out).take n)) := by
  constructor
  · rintro rfl
    rcases merge_ok_inversion icu nfc fs p lang new_paths fs' h with
      ⟨bag, out, stem, hbag, hout, hstem, _, hfs'⟩
    exact ⟨bag, out, stem, hbag, hout, hstem, hfs'⟩
  · rintro e rfl
    exact merge_error_inversion icu nfc fs p lang new_paths fs' e h

/-- Witness for the amended C1 at the truncating write failure: the merge
fails, and the disjunction holds through its second arm. -/
theorem merge_completes_or_leaves_target_witness :
    (merge_language_files (some sampleCap) (fun s => s) sampleFSWriteFail
        samplePayload "en" []).1 = sampleFSWriteFail ∨
    ∃ stem n bag out, samplePayload.path_mapping.lookup "en" = some stem ∧
      merge_word_bag (fun s => s) sampleFSWriteFail samplePayload "en" [] = .ok bag ∧
      sort_word_list (some sampleCap) "en" bag = .ok out ∧
      sampleFSWriteFail.writeBehavior (langFilePath "root" stem) = .failsAfter n ∧
      (merge_language_files (some sampleCap) (fun s => s) sampleFSWriteFail
          samplePayload "en" []).1 =
        sampleFSWriteFail.setContent (langFilePath "root" stem)
          ((String.join out).take n) :=
  (merge_completes_or_leaves_target_unless_write_started (some sampleCap) (fun s => s)
      sampleFSWriteFail samplePayload "en" []
      (merge_language_files (some sampleCap) (fun s => s) sampleFSWriteFail
        samplePayload "en" []).1
      (merge_language_files (some sampleCap) (fun s => s) sampleFSWriteFail
        samplePayload "en" []).2 rfl).2
    (.LanguageDataError "Could not open language file english for writing") (by decide)

end StopWords
